import Mathlib

/-!
Verification of the model lifecycle and similarity manager of the
AiSopraMicroService repository (`app/models/ai_models.py`,
class `OptimizedAIModelManager`).

The embedding is shallow:

* Embedding vectors are lists of rationals (`Vec`).  The external embedding
  backend (`SentenceTransformer`) is an opaque capability
  `encodeOne : String → Except String Vec`; the batch call
  `model.encode([t1, t2], normalize_embeddings=True)` is rendered as
  elementwise encoding of the batch (the backend is deterministic per text).
  A raised Python exception is an `Except.error`.
* The manager's mutable fields `_model` / `_model_loaded` form `ManagerState`.
  Each call that may trigger a model load is parametrised by the outcome
  `loadRes` of the external `SentenceTransformer(...)` constructor for that
  attempt (`.ok` = the constructor returns a backend, `.error` = it raises).
* Sequential (single caller) semantics is given by pure state-passing
  functions mirroring the Python line by line; the concurrent behaviour of
  `get_model` under the double-checked lock is modelled separately as an
  interleaving transition system (`DCL` section below).
-/

namespace AiSopra

/-- An embedding vector: fixed-length list of numbers (rationals in the
embedding, standing for the backend's floats). -/
abbrev Vec := List ℚ

/-- Dot product of two vectors, `np.dot(embeddings[0], embeddings[1])`. -/
def dotQ (u v : Vec) : ℚ := (List.zipWith (fun a b => a * b) u v).sum

/-- The external embedding backend: `SentenceTransformer` as consumed by the
core, an opaque `encode` capability on a single text.  `Except.error`
models a raised exception during encoding. -/
structure Backend where
  encodeOne : String → Except String Vec

/-- Batch encode, `model.encode([t1, t2], ..., normalize_embeddings=True)`:
the backend encodes each text of the batch; a raised exception while encoding
any element fails the whole call. -/
def Backend.encode (B : Backend) : List String → Except String (List Vec)
  | [] => .ok []
  | t :: ts =>
    match B.encodeOne t, B.encode ts with
    | .ok v, .ok vs => .ok (v :: vs)
    | .ok _, .error e => .error e
    | .error e, _ => .error e

/-- The manager's mutable state: fields `_model` and `_model_loaded` of
`OptimizedAIModelManager`. -/
structure ManagerState where
  model : Option Backend
  modelLoaded : Bool

/-- Fresh manager: `_model = None`, `_model_loaded = False`. -/
def initState : ManagerState := ⟨none, false⟩

/-- Python `_load_model_sync`: double-checked lazy load.  `loadRes` is the outcome of
the external `SentenceTransformer(...)` constructor for this attempt.  On
success the handle is cached and `_model_loaded` set; on failure
`_model_loaded` is set to `False` and the exception re-raised (`Except.error`).
In this sequential semantics no writer can run between the unlocked fast-path
check and the re-check under `self._lock`, so both checks read the same
state. -/
def load_model_sync (st : ManagerState) (loadRes : Except String Backend) :
    Except String Backend × ManagerState :=
  -- `if self._model_loaded and self._model is not None: return self._model`
  match st.modelLoaded, st.model with
  | true, some m => (.ok m, st)
  | _, _ =>
    -- the same check again, now under `self._lock`
    match st.modelLoaded, st.model with
    | true, some m => (.ok m, st)
    | _, _ =>
      match loadRes with
      | .ok m => (.ok m, { model := some m, modelLoaded := true })
      | .error e => (.error e, { st with modelLoaded := false })

/-- Python `get_model`: returns the cached model, loading it first when absent.
Returns the field `self._model` (an optional handle), as the Python does;
a load failure propagates to the caller. -/
def get_model (st : ManagerState) (loadRes : Except String Backend) :
    Except String (Option Backend) × ManagerState :=
  -- `if not self._model_loaded or self._model is None: self._load_model_sync()`
  if !st.modelLoaded || st.model.isNone then
    match load_model_sync st loadRes with
    | (.ok _, st') => (.ok st'.model, st')
    | (.error e, st') => (.error e, st')
  else
    (.ok st.model, st)

/-- Python `_calculate_similarity_sync`: the whole body runs inside `try ... except`,
so every raised exception is converted to the result `0.0`. -/
def calculate_similarity_sync (st : ManagerState) (loadRes : Except String Backend)
    (t1 t2 : String) : ℚ × ManagerState :=
  -- `if not text1 or not text2: return 0.0`
  if t1 = "" ∨ t2 = "" then (0, st)
  else
    match get_model st loadRes with
    | (.error _, st') => (0, st')      -- load exception caught by the handler
    | (.ok none, st') => (0, st')      -- `None.encode` raises; caught
    | (.ok (some m), st') =>
      match m.encode [t1, t2] with
      | .error _ => (0, st')           -- backend exception caught
      | .ok (u :: v :: _) => (dotQ u v, st')
      | .ok _ => (0, st')              -- short result: indexing raises; caught

/-- Python `_calculate_similarity_sync`, instrumented with the number of backend
`encode` invocations the call performs (third component).  Identical control
flow; used to state that the empty-input short circuit never consults the
backend. -/
def calculate_similarity_counted (st : ManagerState) (loadRes : Except String Backend)
    (t1 t2 : String) : ℚ × ManagerState × Nat :=
  if t1 = "" ∨ t2 = "" then (0, st, 0)
  else
    match get_model st loadRes with
    | (.error _, st') => (0, st', 0)
    | (.ok none, st') => (0, st', 0)
    | (.ok (some m), st') =>
      match m.encode [t1, t2] with
      | .error _ => (0, st', 1)
      | .ok (u :: v :: _) => (dotQ u v, st', 1)
      | .ok _ => (0, st', 1)

/-- Value semantics of `loop.run_in_executor(self._executor, fn, ...)`: the
worker pool runs the submitted task to completion and the future resolves to
the task's return value. -/
def runInExecutor {α : Type} (task : Unit → α) : α := task ()

/-- Python `calculate_similarity_async`: dispatches `_calculate_similarity_sync`
to the worker pool; the value the future resolves to. -/
def calculate_similarity_async (st : ManagerState) (loadRes : Except String Backend)
    (t1 t2 : String) : ℚ × ManagerState :=
  runInExecutor (fun _ => calculate_similarity_sync st loadRes t1 t2)

/-- Python `calculate_similarity`: blocking entry point, delegates to
`_calculate_similarity_sync`. -/
def calculate_similarity (st : ManagerState) (loadRes : Except String Backend)
    (t1 t2 : String) : ℚ × ManagerState :=
  calculate_similarity_sync st loadRes t1 t2

/-- Python `is_ready`: `self._model_loaded and self._model is not None`. -/
def is_ready (st : ManagerState) : Bool :=
  st.modelLoaded && st.model.isSome

/-! Concrete backends used to exercise the theorems on closed inputs. -/

/-- A deterministic backend producing unit-length embeddings. -/
def unitBackend : Backend :=
  ⟨fun t => if t = "a" then .ok [1, 0] else .ok [3/5, 4/5]⟩

/-- A backend whose encoding always raises. -/
def faultyBackend : Backend := ⟨fun _ => .error "encode fault"⟩

/-!
Interleaving semantics of `get_model` under the double-checked lock
(`DCL`): `n` threads each run the body of `get_model` /
`_load_model_sync` against shared fields `_model`, `_model_loaded` and the
class-level `_lock`.  Loading always succeeds here (the claim concerns
concurrent first-time access, not load faults); each execution of the
load body creates a fresh instance, numbered by `loadCount`.  Program
points of one thread:

* `check1` — `get_model`: `if not self._model_loaded or self._model is None`
  (skip straight to the return when the model is ready);
* `check2` — `_load_model_sync`: the unlocked fast-path check;
* `acquire` — blocked on `with self._lock`;
* `check3` — the same check, now holding the lock;
* `load1` — `self._model = SentenceTransformer(...)` (fresh instance);
* `load2` — `self._model_loaded = True`;
* `unlock` — leave the `with` block;
* `retModel` — `return self._model` (reads the shared field);
* `done` — finished; `ret` holds the value the caller received.

The compound checks are modelled as one atomic read of both fields; this
is sound because `_model` is written strictly before `_model_loaded` and
neither is ever unset.
-/

namespace DCL

/-- Program points of one thread running `get_model`. -/
inductive PC where
  | check1 | check2 | acquire | check3 | load1 | load2 | unlock | retModel | done
deriving DecidableEq

/-- Global state: shared manager fields, the lock owner, the number of
executed loads, and each thread's program point and returned value. -/
structure CState (n : ℕ) where
  model : Option ℕ
  modelLoaded : Bool
  lockHeld : Option (Fin n)
  loadCount : ℕ
  pc : Fin n → PC
  ret : Fin n → Option (Option ℕ)

/-- The check `self._model_loaded and self._model is not None`. -/
def readyCheck {n : ℕ} (s : CState n) : Bool :=
  s.modelLoaded && s.model.isSome

/-- All threads about to call `get_model` on a fresh manager. -/
def cinit (n : ℕ) : CState n :=
  ⟨none, false, none, 0, fun _ => .check1, fun _ => none⟩

/-- One interleaving step: some thread executes its next atomic action. -/
inductive Step {n : ℕ} : CState n → CState n → Prop
  | check1_hit (s : CState n) (i : Fin n) :
      s.pc i = .check1 → readyCheck s = true →
      Step s { s with pc := Function.update s.pc i .retModel }
  | check1_miss (s : CState n) (i : Fin n) :
      s.pc i = .check1 → readyCheck s = false →
      Step s { s with pc := Function.update s.pc i .check2 }
  | check2_hit (s : CState n) (i : Fin n) :
      s.pc i = .check2 → readyCheck s = true →
      Step s { s with pc := Function.update s.pc i .retModel }
  | check2_miss (s : CState n) (i : Fin n) :
      s.pc i = .check2 → readyCheck s = false →
      Step s { s with pc := Function.update s.pc i .acquire }
  | lock_acquire (s : CState n) (i : Fin n) :
      s.pc i = .acquire → s.lockHeld = none →
      Step s { s with lockHeld := some i, pc := Function.update s.pc i .check3 }
  | check3_hit (s : CState n) (i : Fin n) :
      s.pc i = .check3 → readyCheck s = true →
      Step s { s with lockHeld := none, pc := Function.update s.pc i .retModel }
  | check3_miss (s : CState n) (i : Fin n) :
      s.pc i = .check3 → readyCheck s = false →
      Step s { s with pc := Function.update s.pc i .load1 }
  | do_load1 (s : CState n) (i : Fin n) :
      s.pc i = .load1 →
      Step s { s with model := some s.loadCount, loadCount := s.loadCount + 1,
                      pc := Function.update s.pc i .load2 }
  | do_load2 (s : CState n) (i : Fin n) :
      s.pc i = .load2 →
      Step s { s with modelLoaded := true, pc := Function.update s.pc i .unlock }
  | do_unlock (s : CState n) (i : Fin n) :
      s.pc i = .unlock →
      Step s { s with lockHeld := none, pc := Function.update s.pc i .retModel }
  | do_ret (s : CState n) (i : Fin n) :
      s.pc i = .retModel →
      Step s { s with ret := Function.update s.ret i (some s.model),
                      pc := Function.update s.pc i .done }

/-- States reachable from the fresh manager with all threads at `check1`. -/
def Reachable {n : ℕ} (s : CState n) : Prop :=
  Relation.ReflTransGen Step (cinit n) s

/-- Program points inside the critical section guarded by `self._lock`. -/
def inCrit (p : PC) : Prop :=
  p = .check3 ∨ p = .load1 ∨ p = .load2 ∨ p = .unlock
/-- The global invariant of the double-checked locking protocol. -/
structure Inv {n : ℕ} (s : CState n) : Prop where
  count_le : s.loadCount ≤ 1
  none_iff : s.model = none ↔ s.loadCount = 0
  model_zero : ∀ v, s.model = some v → v = 0
  loaded_some : s.modelLoaded = true → s.model.isSome = true
  crit_lock : ∀ i, inCrit (s.pc i) → s.lockHeld = some i
  some_unloaded : s.model.isSome = true → s.modelLoaded = false →
    ∃ j, s.pc j = .load2
  at_load1 : ∀ i, s.pc i = .load1 → s.model = none ∧ s.modelLoaded = false
  at_load2 : ∀ i, s.pc i = .load2 → s.model = some 0
  at_unlock : ∀ i, s.pc i = .unlock → s.model = some 0
  at_ret : ∀ i, s.pc i = .retModel → s.model = some 0
  at_done : ∀ i, s.pc i = .done → s.ret i = some (some 0) ∧ s.model = some 0

/-- Final state of a complete one-thread run of `get_model`. -/
def traceEnd : CState 1 :=
  ⟨some 0, true, none, 1, fun _ => .done, fun _ => some (some 0)⟩

end DCL

/-! Basic facts about the dot product. -/

theorem dotQ_nil_right (u : Vec) : dotQ u [] = 0 := by
  cases u <;> rfl

theorem dotQ_cons (a b : ℚ) (u v : Vec) :
    dotQ (a :: u) (b :: v) = a * b + dotQ u v := rfl

theorem dotQ_comm (u v : Vec) : dotQ u v = dotQ v u := by
  induction u generalizing v with
  | nil => cases v <;> simp [dotQ]
  | cons a u ih =>
    cases v with
    | nil => simp [dotQ]
    | cons b v => rw [dotQ_cons, dotQ_cons, ih, mul_comm]

theorem dotQ_self_nonneg (u : Vec) : 0 ≤ dotQ u u := by
  induction u with
  | nil => simp [dotQ]
  | cons a u ih =>
    rw [dotQ_cons]
    nlinarith [sq_nonneg a]

/-- Cauchy–Schwarz for the list dot product (any lengths). -/
theorem dotQ_cauchy (u v : Vec) : (dotQ u v) ^ 2 ≤ dotQ u u * dotQ v v := by
  induction u generalizing v with
  | nil => simp [dotQ]
  | cons a u ih =>
    cases v with
    | nil =>
      rw [dotQ_nil_right, dotQ_nil_right]
      simp
    | cons b v =>
      rw [dotQ_cons, dotQ_cons, dotQ_cons]
      have hA := dotQ_self_nonneg u
      have hB := dotQ_self_nonneg v
      have hS := ih v
      rcases eq_or_lt_of_le hB with hB0 | hBpos
      · rw [← hB0, mul_zero] at hS
        have hsq : dotQ u v ^ 2 = 0 := le_antisymm hS (sq_nonneg _)
        have hS0 : dotQ u v = 0 := by
          have h2 : (2 : ℕ) ≠ 0 := by norm_num
          exact (pow_eq_zero_iff h2).mp hsq
        rw [← hB0, hS0]
        nlinarith [mul_nonneg hA (sq_nonneg b)]
      · nlinarith [sq_nonneg (a * dotQ v v - b * dotQ u v),
          mul_nonneg (sq_nonneg b) (sub_nonneg.2 hS),
          mul_nonneg (sub_nonneg.2 hS) (le_of_lt hBpos)]

/-- The dot product of two unit-norm vectors lies in `[-1, 1]`. -/
theorem dotQ_unit_bound (u v : Vec) (hu : dotQ u u = 1) (hv : dotQ v v = 1) :
    -1 ≤ dotQ u v ∧ dotQ u v ≤ 1 := by
  have h := dotQ_cauchy u v
  rw [hu, hv, mul_one] at h
  exact abs_le.mp ((sq_le_one_iff_abs_le_one (dotQ u v)).mp h)

/-! Behaviour of `get_model` / `load_model_sync`, by cases on the state. -/

/-- A ready manager hands back the cached handle unchanged. -/
theorem get_model_of_ready (st : ManagerState) (lr : Except String Backend)
    (h : is_ready st = true) : get_model st lr = (.ok st.model, st) := by
  rcases st with ⟨m, l⟩
  rcases m with _ | B <;> rcases l with _ | _ <;> simp_all [is_ready, get_model]

/-- A not-ready manager loads: a successful constructor run caches the fresh
handle and marks the manager loaded. -/
theorem get_model_load_ok (st : ManagerState) (B : Backend)
    (h : is_ready st = false) :
    get_model st (.ok B) = (.ok (some B), ⟨some B, true⟩) := by
  rcases st with ⟨m, l⟩
  rcases m with _ | B' <;> rcases l with _ | _ <;>
    simp_all [is_ready, get_model, load_model_sync]

/-- A not-ready manager loads: a failing constructor run propagates the
exception and clears `_model_loaded`, leaving `_model` untouched. -/
theorem get_model_load_err (st : ManagerState) (e : String)
    (h : is_ready st = false) :
    get_model st (.error e) = (.error e, ⟨st.model, false⟩) := by
  rcases st with ⟨m, l⟩
  rcases m with _ | B' <;> rcases l with _ | _ <;>
    simp_all [is_ready, get_model, load_model_sync]

/-- Whenever `get_model` returns without raising, the manager is ready and
the returned handle is the cached field. -/
theorem get_model_ok_ready (st st' : ManagerState) (lr : Except String Backend)
    (mo : Option Backend) (h : get_model st lr = (.ok mo, st')) :
    is_ready st' = true ∧ mo = st'.model := by
  rcases hr : is_ready st with _ | _
  · rcases lr with e | B
    · rw [get_model_load_err st e hr] at h
      simp at h
    · rw [get_model_load_ok st B hr] at h
      injection h with h1 h2
      subst h2
      injection h1 with h1
      subst h1
      exact ⟨rfl, rfl⟩
  · rw [get_model_of_ready st lr hr] at h
    injection h with h1 h2
    subst h2
    injection h1 with h1
    subst h1
    exact ⟨hr, rfl⟩

/-! Behaviour of `_calculate_similarity_sync`. -/

/-- Successful path: both texts non-empty, model available, backend encodes
both texts; the call returns the dot product of the two embeddings. -/
theorem calc_sim_ok (st st' : ManagerState) (lr : Except String Backend)
    (t1 t2 : String) (m : Backend) (u v : Vec)
    (h1 : t1 ≠ "") (h2 : t2 ≠ "")
    (hm : get_model st lr = (.ok (some m), st'))
    (hu : m.encodeOne t1 = .ok u) (hv : m.encodeOne t2 = .ok v) :
    calculate_similarity_sync st lr t1 t2 = (dotQ u v, st') := by
  have henc : m.encode [t1, t2] = .ok [u, v] := by
    simp [Backend.encode, hu, hv]
  unfold calculate_similarity_sync
  rw [if_neg (by simp [h1, h2]), hm]
  dsimp only
  rw [henc]

/-- Fault path: the backend raises while encoding; the handler returns 0. -/
theorem calc_sim_encode_err (st st' : ManagerState) (lr : Except String Backend)
    (t1 t2 : String) (m : Backend) (e : String)
    (h1 : t1 ≠ "") (h2 : t2 ≠ "")
    (hm : get_model st lr = (.ok (some m), st'))
    (he : m.encode [t1, t2] = .error e) :
    calculate_similarity_sync st lr t1 t2 = (0, st') := by
  unfold calculate_similarity_sync
  rw [if_neg (by simp [h1, h2]), hm]
  dsimp only
  rw [he]

/-- Fault path: the lazy load raises inside the call; the handler returns 0. -/
theorem calc_sim_load_err (st st' : ManagerState) (lr : Except String Backend)
    (t1 t2 : String) (e : String)
    (h1 : t1 ≠ "") (h2 : t2 ≠ "")
    (hm : get_model st lr = (.error e, st')) :
    calculate_similarity_sync st lr t1 t2 = (0, st') := by
  unfold calculate_similarity_sync
  rw [if_neg (by simp [h1, h2]), hm]

/-- The instrumented variant computes the same score and final state as
`_calculate_similarity_sync`. -/
theorem counted_consistent (st : ManagerState) (lr : Except String Backend)
    (t1 t2 : String) :
    (calculate_similarity_counted st lr t1 t2).1 =
      (calculate_similarity_sync st lr t1 t2).1 ∧
    (calculate_similarity_counted st lr t1 t2).2.1 =
      (calculate_similarity_sync st lr t1 t2).2 := by
  unfold calculate_similarity_counted calculate_similarity_sync
  by_cases h : t1 = "" ∨ t2 = ""
  · simp [h]
  · rw [if_neg h, if_neg h]
    rcases hgm : get_model st lr with ⟨r, st'⟩
    rcases r with e | mo
    · simp
    · rcases mo with _ | m
      · simp
      · dsimp only
        rcases henc : m.encode [t1, t2] with e | vs
        · simp
        · rcases vs with _ | ⟨u, _ | ⟨v, rest⟩⟩ <;> simp

/-- How the backend encodes a two-element batch, by cases on the two texts. -/
theorem encode_pair (m : Backend) (x y : String) :
    m.encode [x, y] =
      match m.encodeOne x, m.encodeOne y with
      | .ok u, .ok v => .ok [u, v]
      | .ok _, .error e => .error e
      | .error e, _ => .error e := by
  rcases hx : m.encodeOne x with e | u <;> rcases hy : m.encodeOne y with e' | v <;>
    simp [Backend.encode, hx, hy]
/-! The claims. -/

/-- C1: for non-empty inputs, `compute_similarity` ensures the model is
loaded, encodes both texts into unit-normalized embeddings, and returns
exactly their dot product (the cosine similarity), which lies in
`[-1.0, 1.0]`. -/
theorem similarity_is_cosine_of_unit_embeddings
    (st st' : ManagerState) (lr : Except String Backend)
    (t1 t2 : String) (m : Backend) (u v : Vec)
    (h1 : t1 ≠ "") (h2 : t2 ≠ "")
    (hm : get_model st lr = (.ok (some m), st'))
    (hu : m.encodeOne t1 = .ok u) (hv : m.encodeOne t2 = .ok v)
    (hnu : dotQ u u = 1) (hnv : dotQ v v = 1) :
    is_ready st' = true ∧
    calculate_similarity_sync st lr t1 t2 = (dotQ u v, st') ∧
    -1 ≤ (calculate_similarity_sync st lr t1 t2).1 ∧
    (calculate_similarity_sync st lr t1 t2).1 ≤ 1 := by
  obtain ⟨hr, -⟩ := get_model_ok_ready st st' lr (some m) hm
  have hc := calc_sim_ok st st' lr t1 t2 m u v h1 h2 hm hu hv
  obtain ⟨hlo, hhi⟩ := dotQ_unit_bound u v hnu hnv
  exact ⟨hr, hc, by rw [hc]; exact hlo, by rw [hc]; exact hhi⟩

theorem similarity_is_cosine_of_unit_embeddings_witness :
    is_ready ⟨some unitBackend, true⟩ = true ∧
    calculate_similarity_sync initState (.ok unitBackend) "a" "b" =
      (dotQ [1, 0] [3/5, 4/5], ⟨some unitBackend, true⟩) ∧
    -1 ≤ (calculate_similarity_sync initState (.ok unitBackend) "a" "b").1 ∧
    (calculate_similarity_sync initState (.ok unitBackend) "a" "b").1 ≤ 1 :=
  similarity_is_cosine_of_unit_embeddings initState ⟨some unitBackend, true⟩
    (.ok unitBackend) "a" "b" unitBackend [1, 0] [3/5, 4/5]
    (by decide) (by decide) rfl rfl rfl
    (by simp [dotQ]) (by simp [dotQ]; norm_num)

/-- C2: `compute_similarity` with an empty input on either side returns
exactly 0, leaves the state untouched, and never invokes the backend's
encode operation (invocation count 0). -/
theorem empty_input_short_circuit (st : ManagerState) (lr : Except String Backend)
    (x : String) :
    calculate_similarity_sync st lr "" x = (0, st) ∧
    calculate_similarity_sync st lr x "" = (0, st) ∧
    (calculate_similarity_counted st lr "" x).2.2 = 0 ∧
    (calculate_similarity_counted st lr x "").2.2 = 0 := by
  refine ⟨?_, ?_, ?_, ?_⟩
  · unfold calculate_similarity_sync; rw [if_pos (Or.inl rfl)]
  · unfold calculate_similarity_sync; rw [if_pos (Or.inr rfl)]
  · unfold calculate_similarity_counted; rw [if_pos (Or.inl rfl)]
  · unfold calculate_similarity_counted; rw [if_pos (Or.inr rfl)]

/-- C3: if the backend raises during encoding, `compute_similarity` returns
0 (total function: the exception is caught, never propagated). -/
theorem fail_soft_on_encoding_fault
    (st st' : ManagerState) (lr : Except String Backend) (t1 t2 : String)
    (m : Backend) (e : String)
    (hm : get_model st lr = (.ok (some m), st'))
    (he : m.encode [t1, t2] = .error e) :
    (calculate_similarity_sync st lr t1 t2).1 = 0 := by
  by_cases h1 : t1 = ""
  · subst h1; unfold calculate_similarity_sync; rw [if_pos (Or.inl rfl)]
  · by_cases h2 : t2 = ""
    · subst h2; unfold calculate_similarity_sync; rw [if_pos (Or.inr rfl)]
    · rw [calc_sim_encode_err st st' lr t1 t2 m e h1 h2 hm he]

theorem fail_soft_on_encoding_fault_witness :
    (calculate_similarity_sync initState (.ok faultyBackend) "x" "y").1 = 0 :=
  fail_soft_on_encoding_fault initState ⟨some faultyBackend, true⟩
    (.ok faultyBackend) "x" "y" faultyBackend "encode fault" rfl rfl

/-- C4: a failing backend constructor inside `get_model` propagates the error
to the caller, the manager stays not-loaded (`is_ready` false, no handle
retained), and a subsequent `get_model` performs a fresh, possibly
successful, load attempt. -/
theorem load_failure_propagates_and_allows_retry
    (st : ManagerState) (e : String) (m : Backend) (h : st.model = none) :
    (get_model st (.error e)).1 = .error e ∧
    (get_model st (.error e)).2 = ⟨none, false⟩ ∧
    is_ready (get_model st (.error e)).2 = false ∧
    get_model (get_model st (.error e)).2 (.ok m) =
      (.ok (some m), ⟨some m, true⟩) := by
  have hr : is_ready st = false := by
    rcases st with ⟨mo, l⟩
    cases h
    simp [is_ready]
  rw [get_model_load_err st e hr]
  refine ⟨rfl, ?_, ?_, ?_⟩
  · rw [h]
  · simp [is_ready]
  · rw [h]
    exact get_model_load_ok ⟨none, false⟩ m rfl

theorem load_failure_propagates_and_allows_retry_witness :
    (get_model initState (.error "io error")).1 = .error "io error" ∧
    (get_model initState (.error "io error")).2 = ⟨none, false⟩ ∧
    is_ready (get_model initState (.error "io error")).2 = false ∧
    get_model (get_model initState (.error "io error")).2 (.ok unitBackend) =
      (.ok (some unitBackend), ⟨some unitBackend, true⟩) :=
  load_failure_propagates_and_allows_retry initState "io error" unitBackend rfl

/-- C6: `compute_similarity` is symmetric in its two arguments (the
deterministic backend encodes each text the same way in either batch, and
the dot product commutes). -/
theorem similarity_symmetric (st : ManagerState) (lr : Except String Backend)
    (a b : String) (ha : a ≠ "") (hb : b ≠ "") :
    (calculate_similarity_sync st lr a b).1 =
      (calculate_similarity_sync st lr b a).1 := by
  unfold calculate_similarity_sync
  rw [if_neg (by simp [ha, hb]), if_neg (by simp [ha, hb])]
  rcases hgm : get_model st lr with ⟨r, st'⟩
  rcases r with e | mo
  · simp
  · rcases mo with _ | m
    · simp
    · dsimp only
      rw [encode_pair m a b, encode_pair m b a]
      rcases hea : m.encodeOne a with e | u <;>
        rcases heb : m.encodeOne b with e' | v <;>
        (dsimp only; try simp [dotQ_comm])

theorem similarity_symmetric_witness :
    (calculate_similarity_sync initState (.ok unitBackend) "a" "b").1 =
      (calculate_similarity_sync initState (.ok unitBackend) "b" "a").1 :=
  similarity_symmetric initState (.ok unitBackend) "a" "b" (by decide) (by decide)

/-- C7: on identical non-empty input, `compute_similarity` is within
`±1e-3` of 1 (in this exact-arithmetic embedding it equals 1). -/
theorem similarity_identity_approx_one
    (st st' : ManagerState) (lr : Except String Backend) (a : String)
    (m : Backend) (v : Vec)
    (ha : a ≠ "")
    (hm : get_model st lr = (.ok (some m), st'))
    (hv : m.encodeOne a = .ok v) (hn : dotQ v v = 1) :
    |(calculate_similarity_sync st lr a a).1 - 1| ≤ 1 / 1000 := by
  rw [calc_sim_ok st st' lr a a m v v ha ha hm hv hv]
  simp [hn]

theorem similarity_identity_approx_one_witness :
    |(calculate_similarity_sync initState (.ok unitBackend) "a" "a").1 - 1|
      ≤ 1 / 1000 :=
  similarity_identity_approx_one initState ⟨some unitBackend, true⟩
    (.ok unitBackend) "a" unitBackend [1, 0] (by decide) rfl rfl (by simp [dotQ])

/-- C8: the value the async entry point resolves to equals the value of the
blocking entry point on the same inputs and model state: the async path is a
thread-offloaded wrapper of the same computation. -/
theorem async_resolves_to_sync_value (st : ManagerState)
    (lr : Except String Backend) (t1 t2 : String) :
    calculate_similarity_async st lr t1 t2 = calculate_similarity st lr t1 t2 ∧
    calculate_similarity_async st lr t1 t2 =
      calculate_similarity_sync st lr t1 t2 :=
  ⟨rfl, rfl⟩

/-- C9: `is_ready` is true exactly when a model handle has been successfully
loaded and retained; it is false on a fresh manager and after a failed load
attempt, and true after a successful one. -/
theorem is_ready_iff_loaded (st : ManagerState) (m : Backend) (e : String)
    (h : is_ready st = false) :
    (is_ready st = true ↔ st.modelLoaded = true ∧ st.model.isSome = true) ∧
    is_ready initState = false ∧
    is_ready (get_model st (.ok m)).2 = true ∧
    is_ready (get_model st (.error e)).2 = false := by
  refine ⟨?_, rfl, ?_, ?_⟩
  · simp [is_ready]
  · rw [get_model_load_ok st m h]
    rfl
  · rw [get_model_load_err st e h]
    simp [is_ready]

theorem is_ready_iff_loaded_witness :
    (is_ready initState = true ↔
      initState.modelLoaded = true ∧ initState.model.isSome = true) ∧
    is_ready initState = false ∧
    is_ready (get_model initState (.ok unitBackend)).2 = true ∧
    is_ready (get_model initState (.error "io error")).2 = false :=
  is_ready_iff_loaded initState unitBackend "io error" rfl

/-- C10: when the lazy load triggered inside `compute_similarity` fails, the
exception is caught by the fail-soft handler and the call returns 0; the
load error is visible only to direct callers of `get_model`. -/
theorem load_error_invisible_to_similarity_callers
    (st : ManagerState) (e : String) (t1 t2 : String)
    (h : is_ready st = false) :
    (get_model st (.error e)).1 = .error e ∧
    (calculate_similarity_sync st (.error e) t1 t2).1 = 0 ∧
    (calculate_similarity_async st (.error e) t1 t2).1 = 0 := by
  have hg := get_model_load_err st e h
  have hsync : (calculate_similarity_sync st (.error e) t1 t2).1 = 0 := by
    by_cases h1 : t1 = ""
    · subst h1; unfold calculate_similarity_sync; rw [if_pos (Or.inl rfl)]
    · by_cases h2 : t2 = ""
      · subst h2; unfold calculate_similarity_sync; rw [if_pos (Or.inr rfl)]
      · rw [calc_sim_load_err st ⟨st.model, false⟩ (.error e) t1 t2 e h1 h2 hg]
  exact ⟨by rw [hg], hsync, hsync⟩

theorem load_error_invisible_to_similarity_callers_witness :
    (get_model initState (.error "io error")).1 = .error "io error" ∧
    (calculate_similarity_sync initState (.error "io error") "x" "y").1 = 0 ∧
    (calculate_similarity_async initState (.error "io error") "x" "y").1 = 0 :=
  load_error_invisible_to_similarity_callers initState "io error" "x" "y" rfl

namespace DCL

theorem crit_check3 : inCrit .check3 := Or.inl rfl

theorem crit_load1 : inCrit .load1 := Or.inr (Or.inl rfl)

theorem crit_load2 : inCrit .load2 := Or.inr (Or.inr (Or.inl rfl))

theorem crit_unlock : inCrit .unlock := Or.inr (Or.inr (Or.inr rfl))

theorem ready_model_zero {n : ℕ} {s : CState n} (h : Inv s)
    (hr : readyCheck s = true) : s.model = some 0 := by
  have hs : s.model.isSome = true := by
    unfold readyCheck at hr
    exact (Bool.and_eq_true _ _ |>.mp hr).2
  obtain ⟨v, hv⟩ := Option.isSome_iff_exists.mp hs
  rw [hv, h.model_zero v hv]

theorem inv_init (n : ℕ) : Inv (cinit n) := by
  constructor <;> simp [cinit, inCrit]

theorem not_inCrit_check1 : ¬ inCrit .check1 := by simp [inCrit]

theorem not_inCrit_check2 : ¬ inCrit .check2 := by simp [inCrit]

theorem not_inCrit_acquire : ¬ inCrit .acquire := by simp [inCrit]

theorem not_inCrit_retModel : ¬ inCrit .retModel := by simp [inCrit]

theorem not_inCrit_done : ¬ inCrit .done := by simp [inCrit]

/-- Case split on reading an updated thread-indexed map. -/
theorem update_eq_cases {α β : Type} [DecidableEq α] (f : α → β) (a b : α)
    (v w : β) (h : Function.update f a v b = w) :
    (b = a ∧ v = w) ∨ (b ≠ a ∧ f b = w) := by
  by_cases hba : b = a
  · subst hba
    rw [Function.update_same] at h
    exact Or.inl ⟨rfl, h⟩
  · rw [Function.update_noteq hba] at h
    exact Or.inr ⟨hba, h⟩

/-- Case split on criticality of an updated program point. -/
theorem inCrit_update_cases {n : ℕ} (f : Fin n → PC) (i j : Fin n) (X : PC)
    (h : inCrit (Function.update f i X j)) :
    (j = i ∧ inCrit X) ∨ (j ≠ i ∧ inCrit (f j)) := by
  by_cases hji : j = i
  · subst hji
    rw [Function.update_same] at h
    exact Or.inl ⟨rfl, h⟩
  · rw [Function.update_noteq hji] at h
    exact Or.inr ⟨hji, h⟩

/-- The invariant is preserved by every interleaving step. -/
theorem inv_step {n : ℕ} {s s' : CState n} (h : Inv s) (hs : Step s s') :
    Inv s' := by
  cases hs with
  | check1_hit i hpc hrdy =>
    refine ⟨h.count_le, h.none_iff, h.model_zero, h.loaded_some,
      ?_, ?_, ?_, ?_, ?_, ?_, ?_⟩
    · intro j hcrit
      dsimp only at hcrit ⊢
      rcases inCrit_update_cases _ i j _ hcrit with ⟨_, hX⟩ | ⟨_, hold⟩
      · exact absurd hX not_inCrit_retModel
      · exact h.crit_lock j hold
    · intro hsome hnl
      dsimp only at hsome hnl ⊢
      obtain ⟨j, hj⟩ := h.some_unloaded hsome hnl
      have hji : j ≠ i := fun he => by
        rw [he, hpc] at hj; exact PC.noConfusion hj
      exact ⟨j, (Function.update_noteq hji _ _).trans hj⟩
    · intro j hj
      dsimp only at hj ⊢
      rcases update_eq_cases _ i j _ _ hj with ⟨_, hX⟩ | ⟨_, hold⟩
      · exact PC.noConfusion hX
      · exact h.at_load1 j hold
    · intro j hj
      dsimp only at hj ⊢
      rcases update_eq_cases _ i j _ _ hj with ⟨_, hX⟩ | ⟨_, hold⟩
      · exact PC.noConfusion hX
      · exact h.at_load2 j hold
    · intro j hj
      dsimp only at hj ⊢
      rcases update_eq_cases _ i j _ _ hj with ⟨_, hX⟩ | ⟨_, hold⟩
      · exact PC.noConfusion hX
      · exact h.at_unlock j hold
    · intro j hj
      dsimp only at hj ⊢
      rcases update_eq_cases _ i j _ _ hj with ⟨_, _⟩ | ⟨_, hold⟩
      · exact ready_model_zero h hrdy
      · exact h.at_ret j hold
    · intro j hj
      dsimp only at hj ⊢
      rcases update_eq_cases _ i j _ _ hj with ⟨_, hX⟩ | ⟨_, hold⟩
      · exact PC.noConfusion hX
      · exact h.at_done j hold
  | check1_miss i hpc hrdy =>
    refine ⟨h.count_le, h.none_iff, h.model_zero, h.loaded_some,
      ?_, ?_, ?_, ?_, ?_, ?_, ?_⟩
    · intro j hcrit
      dsimp only at hcrit ⊢
      rcases inCrit_update_cases _ i j _ hcrit with ⟨_, hX⟩ | ⟨_, hold⟩
      · exact absurd hX not_inCrit_check2
      · exact h.crit_lock j hold
    · intro hsome hnl
      dsimp only at hsome hnl ⊢
      obtain ⟨j, hj⟩ := h.some_unloaded hsome hnl
      have hji : j ≠ i := fun he => by
        rw [he, hpc] at hj; exact PC.noConfusion hj
      exact ⟨j, (Function.update_noteq hji _ _).trans hj⟩
    · intro j hj
      dsimp only at hj ⊢
      rcases update_eq_cases _ i j _ _ hj with ⟨_, hX⟩ | ⟨_, hold⟩
      · exact PC.noConfusion hX
      · exact h.at_load1 j hold
    · intro j hj
      dsimp only at hj ⊢
      rcases update_eq_cases _ i j _ _ hj with ⟨_, hX⟩ | ⟨_, hold⟩
      · exact PC.noConfusion hX
      · exact h.at_load2 j hold
    · intro j hj
      dsimp only at hj ⊢
      rcases update_eq_cases _ i j _ _ hj with ⟨_, hX⟩ | ⟨_, hold⟩
      · exact PC.noConfusion hX
      · exact h.at_unlock j hold
    · intro j hj
      dsimp only at hj ⊢
      rcases update_eq_cases _ i j _ _ hj with ⟨_, hX⟩ | ⟨_, hold⟩
      · exact PC.noConfusion hX
      · exact h.at_ret j hold
    · intro j hj
      dsimp only at hj ⊢
      rcases update_eq_cases _ i j _ _ hj with ⟨_, hX⟩ | ⟨_, hold⟩
      · exact PC.noConfusion hX
      · exact h.at_done j hold
  | check2_hit i hpc hrdy =>
    refine ⟨h.count_le, h.none_iff, h.model_zero, h.loaded_some,
      ?_, ?_, ?_, ?_, ?_, ?_, ?_⟩
    · intro j hcrit
      dsimp only at hcrit ⊢
      rcases inCrit_update_cases _ i j _ hcrit with ⟨_, hX⟩ | ⟨_, hold⟩
      · exact absurd hX not_inCrit_retModel
      · exact h.crit_lock j hold
    · intro hsome hnl
      dsimp only at hsome hnl ⊢
      obtain ⟨j, hj⟩ := h.some_unloaded hsome hnl
      have hji : j ≠ i := fun he => by
        rw [he, hpc] at hj; exact PC.noConfusion hj
      exact ⟨j, (Function.update_noteq hji _ _).trans hj⟩
    · intro j hj
      dsimp only at hj ⊢
      rcases update_eq_cases _ i j _ _ hj with ⟨_, hX⟩ | ⟨_, hold⟩
      · exact PC.noConfusion hX
      · exact h.at_load1 j hold
    · intro j hj
      dsimp only at hj ⊢
      rcases update_eq_cases _ i j _ _ hj with ⟨_, hX⟩ | ⟨_, hold⟩
      · exact PC.noConfusion hX
      · exact h.at_load2 j hold
    · intro j hj
      dsimp only at hj ⊢
      rcases update_eq_cases _ i j _ _ hj with ⟨_, hX⟩ | ⟨_, hold⟩
      · exact PC.noConfusion hX
      · exact h.at_unlock j hold
    · intro j hj
      dsimp only at hj ⊢
      rcases update_eq_cases _ i j _ _ hj with ⟨_, _⟩ | ⟨_, hold⟩
      · exact ready_model_zero h hrdy
      · exact h.at_ret j hold
    · intro j hj
      dsimp only at hj ⊢
      rcases update_eq_cases _ i j _ _ hj with ⟨_, hX⟩ | ⟨_, hold⟩
      · exact PC.noConfusion hX
      · exact h.at_done j hold
  | check2_miss i hpc hrdy =>
    refine ⟨h.count_le, h.none_iff, h.model_zero, h.loaded_some,
      ?_, ?_, ?_, ?_, ?_, ?_, ?_⟩
    · intro j hcrit
      dsimp only at hcrit ⊢
      rcases inCrit_update_cases _ i j _ hcrit with ⟨_, hX⟩ | ⟨_, hold⟩
      · exact absurd hX not_inCrit_acquire
      · exact h.crit_lock j hold
    · intro hsome hnl
      dsimp only at hsome hnl ⊢
      obtain ⟨j, hj⟩ := h.some_unloaded hsome hnl
      have hji : j ≠ i := fun he => by
        rw [he, hpc] at hj; exact PC.noConfusion hj
      exact ⟨j, (Function.update_noteq hji _ _).trans hj⟩
    · intro j hj
      dsimp only at hj ⊢
      rcases update_eq_cases _ i j _ _ hj with ⟨_, hX⟩ | ⟨_, hold⟩
      · exact PC.noConfusion hX
      · exact h.at_load1 j hold
    · intro j hj
      dsimp only at hj ⊢
      rcases update_eq_cases _ i j _ _ hj with ⟨_, hX⟩ | ⟨_, hold⟩
      · exact PC.noConfusion hX
      · exact h.at_load2 j hold
    · intro j hj
      dsimp only at hj ⊢
      rcases update_eq_cases _ i j _ _ hj with ⟨_, hX⟩ | ⟨_, hold⟩
      · exact PC.noConfusion hX
      · exact h.at_unlock j hold
    · intro j hj
      dsimp only at hj ⊢
      rcases update_eq_cases _ i j _ _ hj with ⟨_, hX⟩ | ⟨_, hold⟩
      · exact PC.noConfusion hX
      · exact h.at_ret j hold
    · intro j hj
      dsimp only at hj ⊢
      rcases update_eq_cases _ i j _ _ hj with ⟨_, hX⟩ | ⟨_, hold⟩
      · exact PC.noConfusion hX
      · exact h.at_done j hold
  | lock_acquire i hpc hlock =>
    refine ⟨h.count_le, h.none_iff, h.model_zero, h.loaded_some,
      ?_, ?_, ?_, ?_, ?_, ?_, ?_⟩
    · intro j hcrit
      dsimp only at hcrit ⊢
      rcases inCrit_update_cases _ i j _ hcrit with ⟨hji, _⟩ | ⟨_, hold⟩
      · exact (congrArg some hji).symm
      · exact Option.noConfusion (hlock ▸ h.crit_lock j hold)
    · intro hsome hnl
      dsimp only at hsome hnl ⊢
      obtain ⟨j, hj⟩ := h.some_unloaded hsome hnl
      exact Option.noConfusion (hlock ▸ h.crit_lock j (hj.symm ▸ crit_load2))
    · intro j hj
      dsimp only at hj ⊢
      rcases update_eq_cases _ i j _ _ hj with ⟨_, hX⟩ | ⟨_, hold⟩
      · exact PC.noConfusion hX
      · exact h.at_load1 j hold
    · intro j hj
      dsimp only at hj ⊢
      rcases update_eq_cases _ i j _ _ hj with ⟨_, hX⟩ | ⟨_, hold⟩
      · exact PC.noConfusion hX
      · exact h.at_load2 j hold
    · intro j hj
      dsimp only at hj ⊢
      rcases update_eq_cases _ i j _ _ hj with ⟨_, hX⟩ | ⟨_, hold⟩
      · exact PC.noConfusion hX
      · exact h.at_unlock j hold
    · intro j hj
      dsimp only at hj ⊢
      rcases update_eq_cases _ i j _ _ hj with ⟨_, hX⟩ | ⟨_, hold⟩
      · exact PC.noConfusion hX
      · exact h.at_ret j hold
    · intro j hj
      dsimp only at hj ⊢
      rcases update_eq_cases _ i j _ _ hj with ⟨_, hX⟩ | ⟨_, hold⟩
      · exact PC.noConfusion hX
      · exact h.at_done j hold
  | check3_hit i hpc hrdy =>
    refine ⟨h.count_le, h.none_iff, h.model_zero, h.loaded_some,
      ?_, ?_, ?_, ?_, ?_, ?_, ?_⟩
    · intro j hcrit
      dsimp only at hcrit ⊢
      rcases inCrit_update_cases _ i j _ hcrit with ⟨_, hX⟩ | ⟨hji, hold⟩
      · exact absurd hX not_inCrit_retModel
      · exact absurd (Option.some.inj
          ((h.crit_lock j hold).symm.trans
            (h.crit_lock i (hpc.symm ▸ crit_check3)))) hji
    · intro hsome hnl
      dsimp only at hsome hnl ⊢
      obtain ⟨j, hj⟩ := h.some_unloaded hsome hnl
      have hji : j ≠ i := fun he => by
        rw [he, hpc] at hj; exact PC.noConfusion hj
      exact ⟨j, (Function.update_noteq hji _ _).trans hj⟩
    · intro j hj
      dsimp only at hj ⊢
      rcases update_eq_cases _ i j _ _ hj with ⟨_, hX⟩ | ⟨_, hold⟩
      · exact PC.noConfusion hX
      · exact h.at_load1 j hold
    · intro j hj
      dsimp only at hj ⊢
      rcases update_eq_cases _ i j _ _ hj with ⟨_, hX⟩ | ⟨_, hold⟩
      · exact PC.noConfusion hX
      · exact h.at_load2 j hold
    · intro j hj
      dsimp only at hj ⊢
      rcases update_eq_cases _ i j _ _ hj with ⟨_, hX⟩ | ⟨_, hold⟩
      · exact PC.noConfusion hX
      · exact h.at_unlock j hold
    · intro j hj
      dsimp only at hj ⊢
      rcases update_eq_cases _ i j _ _ hj with ⟨_, _⟩ | ⟨_, hold⟩
      · exact ready_model_zero h hrdy
      · exact h.at_ret j hold
    · intro j hj
      dsimp only at hj ⊢
      rcases update_eq_cases _ i j _ _ hj with ⟨_, hX⟩ | ⟨_, hold⟩
      · exact PC.noConfusion hX
      · exact h.at_done j hold
  | check3_miss i hpc hrdy =>
    refine ⟨h.count_le, h.none_iff, h.model_zero, h.loaded_some,
      ?_, ?_, ?_, ?_, ?_, ?_, ?_⟩
    · intro j hcrit
      dsimp only at hcrit ⊢
      rcases inCrit_update_cases _ i j _ hcrit with ⟨hji, _⟩ | ⟨_, hold⟩
      · rw [hji]
        exact h.crit_lock i (hpc.symm ▸ crit_check3)
      · exact h.crit_lock j hold
    · intro hsome hnl
      dsimp only at hsome hnl ⊢
      obtain ⟨j, hj⟩ := h.some_unloaded hsome hnl
      have hji : j ≠ i := fun he => by
        rw [he, hpc] at hj; exact PC.noConfusion hj
      exact ⟨j, (Function.update_noteq hji _ _).trans hj⟩
    · intro j hj
      dsimp only at hj ⊢
      rcases update_eq_cases _ i j _ _ hj with ⟨_, _⟩ | ⟨_, hold⟩
      · have hml : s.modelLoaded = false := by
          cases hml : s.modelLoaded
          · rfl
          · have hsome := h.loaded_some hml
            unfold readyCheck at hrdy
            rw [hml, hsome] at hrdy
            exact Bool.noConfusion hrdy
        have hmo : s.model = none := by
          cases hmo : s.model with
          | none => rfl
          | some v =>
            have hsome : s.model.isSome = true := by rw [hmo]; rfl
            obtain ⟨k, hk⟩ := h.some_unloaded hsome hml
            have hlk := h.crit_lock k (hk.symm ▸ crit_load2)
            have hli := h.crit_lock i (hpc.symm ▸ crit_check3)
            have hki : k = i := Option.some.inj (hlk.symm.trans hli)
            rw [hki, hpc] at hk
            exact PC.noConfusion hk
        exact ⟨hmo, hml⟩
      · exact h.at_load1 j hold
    · intro j hj
      dsimp only at hj ⊢
      rcases update_eq_cases _ i j _ _ hj with ⟨_, hX⟩ | ⟨_, hold⟩
      · exact PC.noConfusion hX
      · exact h.at_load2 j hold
    · intro j hj
      dsimp only at hj ⊢
      rcases update_eq_cases _ i j _ _ hj with ⟨_, hX⟩ | ⟨_, hold⟩
      · exact PC.noConfusion hX
      · exact h.at_unlock j hold
    · intro j hj
      dsimp only at hj ⊢
      rcases update_eq_cases _ i j _ _ hj with ⟨_, hX⟩ | ⟨_, hold⟩
      · exact PC.noConfusion hX
      · exact h.at_ret j hold
    · intro j hj
      dsimp only at hj ⊢
      rcases update_eq_cases _ i j _ _ hj with ⟨_, hX⟩ | ⟨_, hold⟩
      · exact PC.noConfusion hX
      · exact h.at_done j hold
  | do_load1 i hpc =>
    obtain ⟨hmo, hml⟩ := h.at_load1 i hpc
    have hc0 : s.loadCount = 0 := h.none_iff.mp hmo
    refine ⟨?_, ?_, ?_, ?_, ?_, ?_, ?_, ?_, ?_, ?_, ?_⟩
    · show s.loadCount + 1 ≤ 1
      rw [hc0]
    · show some s.loadCount = none ↔ s.loadCount + 1 = 0
      simp
    · intro v hv
      dsimp only at hv
      cases Option.some.inj hv
      exact hc0
    · intro _
      rfl
    · intro j hcrit
      dsimp only at hcrit ⊢
      rcases inCrit_update_cases _ i j _ hcrit with ⟨hji, _⟩ | ⟨_, hold⟩
      · rw [hji]
        exact h.crit_lock i (hpc.symm ▸ crit_load1)
      · exact h.crit_lock j hold
    · intro _ _
      dsimp only
      exact ⟨i, Function.update_same _ _ _⟩
    · intro j hj
      dsimp only at hj ⊢
      rcases update_eq_cases _ i j _ _ hj with ⟨_, hX⟩ | ⟨hji, hold⟩
      · exact PC.noConfusion hX
      · exact absurd (Option.some.inj
          ((h.crit_lock j (hold.symm ▸ crit_load1)).symm.trans
            (h.crit_lock i (hpc.symm ▸ crit_load1)))) hji
    · intro j hj
      dsimp only at hj ⊢
      rcases update_eq_cases _ i j _ _ hj with ⟨_, _⟩ | ⟨_, hold⟩
      · show some s.loadCount = some 0
        rw [hc0]
      · exact Option.noConfusion (hmo ▸ h.at_load2 j hold)
    · intro j hj
      dsimp only at hj ⊢
      rcases update_eq_cases _ i j _ _ hj with ⟨_, hX⟩ | ⟨_, hold⟩
      · exact PC.noConfusion hX
      · exact Option.noConfusion (hmo ▸ h.at_unlock j hold)
    · intro j hj
      dsimp only at hj ⊢
      rcases update_eq_cases _ i j _ _ hj with ⟨_, hX⟩ | ⟨_, hold⟩
      · exact PC.noConfusion hX
      · exact Option.noConfusion (hmo ▸ h.at_ret j hold)
    · intro j hj
      dsimp only at hj ⊢
      rcases update_eq_cases _ i j _ _ hj with ⟨_, hX⟩ | ⟨_, hold⟩
      · exact PC.noConfusion hX
      · exact Option.noConfusion (hmo ▸ (h.at_done j hold).2)
  | do_load2 i hpc =>
    have hm0 := h.at_load2 i hpc
    refine ⟨h.count_le, h.none_iff, h.model_zero, ?_, ?_, ?_, ?_, ?_, ?_, ?_, ?_⟩
    · intro _
      dsimp only
      rw [hm0]
      rfl
    · intro j hcrit
      dsimp only at hcrit ⊢
      rcases inCrit_update_cases _ i j _ hcrit with ⟨hji, _⟩ | ⟨_, hold⟩
      · rw [hji]
        exact h.crit_lock i (hpc.symm ▸ crit_load2)
      · exact h.crit_lock j hold
    · intro _ hl
      dsimp only at hl
      exact Bool.noConfusion hl
    · intro j hj
      dsimp only at hj ⊢
      rcases update_eq_cases _ i j _ _ hj with ⟨_, hX⟩ | ⟨_, hold⟩
      · exact PC.noConfusion hX
      · exact Option.noConfusion ((h.at_load1 j hold).1.symm.trans hm0)
    · intro j hj
      dsimp only at hj ⊢
      rcases update_eq_cases _ i j _ _ hj with ⟨_, hX⟩ | ⟨_, hold⟩
      · exact PC.noConfusion hX
      · exact h.at_load2 j hold
    · intro j hj
      dsimp only at hj ⊢
      rcases update_eq_cases _ i j _ _ hj with ⟨_, _⟩ | ⟨_, hold⟩
      · exact hm0
      · exact h.at_unlock j hold
    · intro j hj
      dsimp only at hj ⊢
      rcases update_eq_cases _ i j _ _ hj with ⟨_, hX⟩ | ⟨_, hold⟩
      · exact PC.noConfusion hX
      · exact h.at_ret j hold
    · intro j hj
      dsimp only at hj ⊢
      rcases update_eq_cases _ i j _ _ hj with ⟨_, hX⟩ | ⟨_, hold⟩
      · exact PC.noConfusion hX
      · exact h.at_done j hold
  | do_unlock i hpc =>
    have hm0 := h.at_unlock i hpc
    refine ⟨h.count_le, h.none_iff, h.model_zero, h.loaded_some,
      ?_, ?_, ?_, ?_, ?_, ?_, ?_⟩
    · intro j hcrit
      dsimp only at hcrit ⊢
      rcases inCrit_update_cases _ i j _ hcrit with ⟨_, hX⟩ | ⟨hji, hold⟩
      · exact absurd hX not_inCrit_retModel
      · exact absurd (Option.some.inj
          ((h.crit_lock j hold).symm.trans
            (h.crit_lock i (hpc.symm ▸ crit_unlock)))) hji
    · intro hsome hnl
      dsimp only at hsome hnl ⊢
      obtain ⟨j, hj⟩ := h.some_unloaded hsome hnl
      have hji : j ≠ i := fun he => by
        rw [he, hpc] at hj; exact PC.noConfusion hj
      exact ⟨j, (Function.update_noteq hji _ _).trans hj⟩
    · intro j hj
      dsimp only at hj ⊢
      rcases update_eq_cases _ i j _ _ hj with ⟨_, hX⟩ | ⟨_, hold⟩
      · exact PC.noConfusion hX
      · exact h.at_load1 j hold
    · intro j hj
      dsimp only at hj ⊢
      rcases update_eq_cases _ i j _ _ hj with ⟨_, hX⟩ | ⟨_, hold⟩
      · exact PC.noConfusion hX
      · exact h.at_load2 j hold
    · intro j hj
      dsimp only at hj ⊢
      rcases update_eq_cases _ i j _ _ hj with ⟨_, hX⟩ | ⟨_, hold⟩
      · exact PC.noConfusion hX
      · exact h.at_unlock j hold
    · intro j hj
      dsimp only at hj ⊢
      rcases update_eq_cases _ i j _ _ hj with ⟨_, _⟩ | ⟨_, hold⟩
      · exact hm0
      · exact h.at_ret j hold
    · intro j hj
      dsimp only at hj ⊢
      rcases update_eq_cases _ i j _ _ hj with ⟨_, hX⟩ | ⟨_, hold⟩
      · exact PC.noConfusion hX
      · exact h.at_done j hold
  | do_ret i hpc =>
    have hm0 := h.at_ret i hpc
    refine ⟨h.count_le, h.none_iff, h.model_zero, h.loaded_some,
      ?_, ?_, ?_, ?_, ?_, ?_, ?_⟩
    · intro j hcrit
      dsimp only at hcrit ⊢
      rcases inCrit_update_cases _ i j _ hcrit with ⟨_, hX⟩ | ⟨_, hold⟩
      · exact absurd hX not_inCrit_done
      · exact h.crit_lock j hold
    · intro hsome hnl
      dsimp only at hsome hnl ⊢
      obtain ⟨j, hj⟩ := h.some_unloaded hsome hnl
      have hji : j ≠ i := fun he => by
        rw [he, hpc] at hj; exact PC.noConfusion hj
      exact ⟨j, (Function.update_noteq hji _ _).trans hj⟩
    · intro j hj
      dsimp only at hj ⊢
      rcases update_eq_cases _ i j _ _ hj with ⟨_, hX⟩ | ⟨_, hold⟩
      · exact PC.noConfusion hX
      · exact h.at_load1 j hold
    · intro j hj
      dsimp only at hj ⊢
      rcases update_eq_cases _ i j _ _ hj with ⟨_, hX⟩ | ⟨_, hold⟩
      · exact PC.noConfusion hX
      · exact h.at_load2 j hold
    · intro j hj
      dsimp only at hj ⊢
      rcases update_eq_cases _ i j _ _ hj with ⟨_, hX⟩ | ⟨_, hold⟩
      · exact PC.noConfusion hX
      · exact h.at_unlock j hold
    · intro j hj
      dsimp only at hj ⊢
      rcases update_eq_cases _ i j _ _ hj with ⟨_, hX⟩ | ⟨_, hold⟩
      · exact PC.noConfusion hX
      · exact h.at_ret j hold
    · intro j hj
      dsimp only at hj ⊢
      rcases update_eq_cases _ i j _ _ hj with ⟨hji, _⟩ | ⟨hji, hold⟩
      · subst hji
        exact ⟨(Function.update_same _ _ _).trans (congrArg some hm0), hm0⟩
      · exact ⟨(Function.update_noteq hji _ _).trans (h.at_done j hold).1,
          (h.at_done j hold).2⟩

/-- The invariant holds in every reachable state. -/
theorem inv_reachable {n : ℕ} {s : CState n} (h : Reachable s) : Inv s := by
  induction h with
  | refl => exact inv_init n
  | tail _ hstep ih => exact inv_step ih hstep

/-- C5: in any complete interleaved execution of `get_model` by `n ≥ 1`
threads against a fresh manager, the load body executes exactly once, and
every thread's call returns the single loaded instance (double-checked-locked
lazy initialization is idempotent). -/
theorem concurrent_get_model_loads_once {n : ℕ} (s : CState n) (hn : 0 < n)
    (hr : Reachable s) (hdone : ∀ i, s.pc i = .done) :
    s.loadCount = 1 ∧ ∀ i, s.ret i = some (some 0) := by
  have hinv := inv_reachable hr
  have hmodel : s.model = some 0 := (hinv.at_done ⟨0, hn⟩ (hdone ⟨0, hn⟩)).2
  constructor
  · have h1 : s.loadCount ≠ 0 := fun h0 => by
      rw [hinv.none_iff.mpr h0] at hmodel
      exact Option.noConfusion hmodel
    have h2 := hinv.count_le
    omega
  · exact fun i => (hinv.at_done i (hdone i)).1

/-- Updating a map over the one-point type `Fin 1` yields a constant map. -/
theorem update_const {β : Type} (f : Fin 1 → β) (v : β) :
    Function.update f 0 v = fun _ => v := by
  funext j
  have hj : j = 0 := Subsingleton.elim j 0
  subst hj
  rw [Function.update_same]

theorem concurrent_get_model_loads_once_witness :
    traceEnd.loadCount = 1 ∧ traceEnd.ret 0 = some (some 0) := by
  have hr : Reachable traceEnd := by
    have t := Relation.ReflTransGen.refl (r := @Step 1) (a := cinit 1)
    have t := t.tail (Step.check1_miss _ 0 rfl rfl)
    rw [update_const] at t
    have t := t.tail (Step.check2_miss _ 0 rfl rfl)
    rw [update_const] at t
    have t := t.tail (Step.lock_acquire _ 0 rfl rfl)
    rw [update_const] at t
    have t := t.tail (Step.check3_miss _ 0 rfl rfl)
    rw [update_const] at t
    have t := t.tail (Step.do_load1 _ 0 rfl)
    rw [update_const] at t
    have t := t.tail (Step.do_load2 _ 0 rfl)
    rw [update_const] at t
    have t := t.tail (Step.do_unlock _ 0 rfl)
    rw [update_const] at t
    have t := t.tail (Step.do_ret _ 0 rfl)
    rw [update_const, update_const] at t
    exact t
  have h := concurrent_get_model_loads_once traceEnd (by decide) hr (fun _ => rfl)
  exact ⟨h.1, h.2 0⟩

end DCL

end AiSopra
